import Mathlib

/-!
Verification of the Edinburgh Genomics Fastq-Trimmer (`src/filter.c`).

The development shallowly embeds the C program: a text line is a `String`
(stored with its terminator, as the C code keeps the `\n` returned by
`gzgets`), an input stream is the list of its lines, a FASTQ record is the
four lines read for it, and the main loop of `filter_fastqs` is a
recursive function over the two remaining line lists.  Machine `int`
counters never go near overflow in the claims considered, so they are
modelled as `Nat`.
-/

namespace Fastq

/-- A FASTQ record: the four lines read consecutively from one stream.
Each line is kept verbatim, terminator included, exactly as the C code
keeps the buffer returned by its line reader. -/
structure FastqRecord where
  header : String
  seq : String
  strand : String
  qual : String
deriving DecidableEq, Repr

/-- Embedding of `std_check_read` (filter.c:108-114): keep a pair iff both
sequence lines are strictly longer than the threshold. -/
def std_check_read (threshold : Nat) (r1 r2 : FastqRecord) : Bool :=
  if r1.seq.length > threshold ∧ r2.seq.length > threshold then true else false

/-- Splitting a character list on a delimiter, keeping empty fields:
`splitOnChar ':' "a::b"` gives `["a", "", "b"]` (as character lists). -/
def splitOnChar (delim : Char) : List Char → List (List Char)
  | [] => [[]]
  | c :: cs =>
    if c = delim then [] :: splitOnChar delim cs
    else
      match splitOnChar delim cs with
      | [] => [[c]]
      | f :: fs => (c :: f) :: fs

/-- Tokens produced by repeated `strtok(s, delim)` calls: the nonempty
maximal runs of non-delimiter characters.  `strtok` skips empty fields,
so this is the colon-split with the empty pieces dropped. -/
def strtok_fields (s : String) (delim : Char) : List String :=
  ((splitOnChar delim s.data).map String.mk).filter (fun f => f ≠ "")

/-- Embedding of `get_tile_id` (filter.c:96-104): call `strtok` on `":"`
five times and return the fifth token, or the NULL sentinel (`none`) when
the header has fewer than five such tokens. -/
def get_tile_id (fastq_header : String) : Option String :=
  (strtok_fields fastq_header ':')[4]?

/-- Embedding of the membership loop of `tile_check_read`
(filter.c:127-138): walk the NULL-terminated tile array comparing each
entry with the tile id.  Comparing against a NULL tile id
(`strcmp(comp, NULL)`) is undefined behaviour, modelled by `none`. -/
def tile_member : List String → Option String → Option Bool
  | [], _ => some false
  | _ :: _, none => none
  | t :: ts, some tid =>
    match tile_member ts (some tid) with
    | none => none
    | some b => some ((t == tid) || b)

/-- Embedding of `tile_check_read` (filter.c:117-142): short-circuit on
the length check, then exclude the pair when mate 1's tile id is in the
removal list.  `none` marks the undefined `strcmp(comp, NULL)` reached
when the header yields no tile id and the list is nonempty. -/
def tile_check_read (threshold : Nat) (tiles_to_remove : List String)
    (r1 r2 : FastqRecord) : Option Bool :=
  if std_check_read threshold r1 r2 = false then some false
  else
    match tile_member tiles_to_remove (get_tile_id r1.header) with
    | none => none
    | some member => some (!member)

/-- Embedding of `build_remove_tiles` (filter.c:287-314): split the
`--remove_tiles` argument on commas with `strtok`, producing the
NULL-terminated tile array. -/
def build_remove_tiles (remove_tiles : String) : List String :=
  strtok_fields remove_tiles ','

/-- Model of the two stores `s[i] = '\n'; s[i + 1] = '\0'` performed by
`_trim_include` on a C string whose `strlen` is `s.length`: for
`i < s.length` this truncates to the first `i` characters plus a newline,
for `i = s.length` it overwrites the terminator (appending a newline),
and for `i > s.length` the stores land beyond the terminator and leave
the string's contents unchanged. -/
def set_line_end (s : String) (i : Nat) : String :=
  if i ≤ s.length then String.mk (s.data.take i ++ ['\n']) else s

/-- Embedding of `_trim_include` (filter.c:156-164): when the sequence
line is longer than `trim_len + 1` (the `+ 1` compensates for the
newline), rewrite the sequence and quality lines in place; the header
and strand lines are never touched. -/
def _trim_include (r : FastqRecord) (trim_len : Nat) : FastqRecord :=
  if r.seq.length > trim_len + 1 then
    { r with seq := set_line_end r.seq trim_len,
             qual := set_line_end r.qual trim_len }
  else r

/-- Embedding of `std_include` (filter.c:148-153): the record is written
unchanged, i.e. the identity transform. -/
def std_include (r : FastqRecord) : FastqRecord := r

/-- The first byte of a C string: `Char.ofNat 0` (NUL) when the string is
empty.  `filter_fastqs` compares first bytes (`*r1_header`) to detect
end-of-stream and desynchronization. -/
def firstChar (s : String) : Char := s.data.headD (Char.ofNat 0)

/-- The three global counters of filter.c:26, all initialised to `0`. -/
structure Stats where
  checked : Nat
  removed : Nat
  remaining : Nat
deriving DecidableEq, Repr

/-- Result of a `filter_fastqs` run: the returned status (`0` success,
`1` desync), the final counters, the line offset logged on desync
(`none` when nothing was logged), the records written to the two output
streams, and whether the four streams were closed before returning. -/
structure LoopResult where
  status : Nat
  stats : Stats
  desyncLine : Option Nat
  out1 : List FastqRecord
  out2 : List FastqRecord
  closed : Bool
deriving DecidableEq, Repr

/-- Four consecutive `read_func` calls on one stream
(filter.c:207-215): each call pops the next line, or yields the empty
sentinel once the stream is exhausted. -/
def readRecord : List String → FastqRecord × List String
  | [] => (⟨"", "", "", ""⟩, [])
  | [a] => (⟨a, "", "", ""⟩, [])
  | [a, b] => (⟨a, b, "", ""⟩, [])
  | [a, b, c] => (⟨a, b, c, ""⟩, [])
  | a :: b :: c :: d :: rest => (⟨a, b, c, d⟩, rest)

theorem readRecord_rest_length (l : List String)
    (h : firstChar ((readRecord l).1).header ≠ Char.ofNat 0) :
    ((readRecord l).2).length < l.length := by
  match l with
  | [] => exact absurd rfl h
  | [a] => simp [readRecord]
  | [a, b] => simp [readRecord]
  | [a, b, c] => simp [readRecord]
  | a :: b :: c :: d :: rest => simp [readRecord]; omega

/-- Embedding of the `while (true)` loop of `filter_fastqs`
(filter.c:206-263).  Each iteration reads one record from each stream;
if either header starts with NUL the loop terminates (success when the
first bytes agree, desync — logging `read_pairs_checked * 4` — when they
differ), closing all four streams; otherwise the pair is checked and
either written (transformed by the include functions) or dropped, with
the counters updated accordingly. -/
def filterLoop (check : FastqRecord → FastqRecord → Bool)
    (incl1 incl2 : FastqRecord → FastqRecord)
    (r1 r2 : List String) (st : Stats) : LoopResult :=
  if h : firstChar ((readRecord r1).1).header = Char.ofNat 0 ∨
         firstChar ((readRecord r2).1).header = Char.ofNat 0 then
    if firstChar ((readRecord r1).1).header = firstChar ((readRecord r2).1).header then
      ⟨0, st, none, [], [], true⟩
    else
      ⟨1, st, some (st.checked * 4), [], [], true⟩
  else if check (readRecord r1).1 (readRecord r2).1 then
    let res := filterLoop check incl1 incl2 (readRecord r1).2 (readRecord r2).2
      ⟨st.checked + 1, st.removed, st.remaining + 1⟩
    ⟨res.status, res.stats, res.desyncLine,
      incl1 (readRecord r1).1 :: res.out1, incl2 (readRecord r2).1 :: res.out2,
      res.closed⟩
  else
    filterLoop check incl1 incl2 (readRecord r1).2 (readRecord r2).2
      ⟨st.checked + 1, st.removed + 1, st.remaining⟩
termination_by r1.length
decreasing_by
  · exact readRecord_rest_length r1 (by push_neg at h; exact h.1)
  · exact readRecord_rest_length r1 (by push_neg at h; exact h.1)

/-- The lines obtainable from a `gzopen` result.  `filter_fastqs` never
checks whether `gzopen` succeeded (filter.c:191-192); zlib's `gzgets`
returns `NULL` when handed a `NULL` stream, so a failed open behaves
exactly like an already-exhausted stream. -/
def streamLines : Option (List String) → List String
  | none => []
  | some ls => ls

/-- Embedding of `filter_fastqs` (filter.c:180-264): open the two input
streams (possibly unsuccessfully) and run the loop with the three global
counters at their initial value `0`. -/
def filter_fastqs (check : FastqRecord → FastqRecord → Bool)
    (incl1 incl2 : FastqRecord → FastqRecord)
    (r1i r2i : Option (List String)) : LoopResult :=
  filterLoop check incl1 incl2 (streamLines r1i) (streamLines r2i) ⟨0, 0, 0⟩

/-- A stream holding exactly `n` complete FASTQ records: `4 * n` lines,
none of which starts with a NUL byte (C strings read from a text stream
never contain NUL). -/
def goodStream (s : List String) (n : Nat) : Prop :=
  s.length = 4 * n ∧ ∀ l ∈ s, firstChar l ≠ Char.ofNat 0

instance (s : List String) (n : Nat) : Decidable (goodStream s n) := by
  unfold goodStream; infer_instance

/-- The four lines of a record, in stream order. -/
def recordLines (r : FastqRecord) : List String :=
  [r.header, r.seq, r.strand, r.qual]

/-- The line stream produced by writing a list of records. -/
def flattenRecords : List FastqRecord → List String
  | [] => []
  | r :: rs => recordLines r ++ flattenRecords rs

/-- `block_size` (filter.c:19), the chunk size used by `readln`. -/
def block_size : Nat := 2048

/-- Model of `gzgets(f, buf, n)` on a stream holding the characters `s`:
read at most `n - 1` characters, stopping after the first newline or at
end of stream.  `gzTake n s` returns the characters read and the rest of
the stream; the call fails (reads nothing) exactly when `s` is empty. -/
def gzTake : Nat → List Char → List Char × List Char
  | 0, s => ([], s)
  | _ + 1, [] => ([], [])
  | n + 1, c :: cs =>
    if c = '\n' then ([c], cs)
    else ((c :: (gzTake n cs).1), (gzTake n cs).2)

theorem gzTake_rest_le (n : Nat) (s : List Char) :
    (gzTake n s).2.length ≤ s.length := by
  induction n generalizing s with
  | zero => simp [gzTake]
  | succ m ih =>
    match s with
    | [] => simp [gzTake]
    | c :: cs =>
      simp only [gzTake]
      by_cases hc : c = '\n'
      · simp [hc]
      · simp only [if_neg hc]
        calc (gzTake m cs).2.length ≤ cs.length := ih cs
          _ ≤ (c :: cs).length := by simp

theorem gzTake_rest_lt (n : Nat) (s : List Char) (hn : 0 < n) (hs : s ≠ []) :
    (gzTake n s).2.length < s.length := by
  match n, s with
  | m + 1, c :: cs =>
    simp only [gzTake]
    by_cases hc : c = '\n'
    · simp [hc]
    · simp only [if_neg hc]
      calc (gzTake m cs).2.length ≤ cs.length := gzTake_rest_le m cs
        _ < (c :: cs).length := by simp

/-- Embedding of `readln` (filter.c:60-90): repeatedly `gzgets` a chunk
of up to `block_size - 1` characters and append it to the line, stopping
when the accumulated line ends in a newline; when `gzgets` fails (stream
exhausted) return whatever has been accumulated — the empty string on
the very first call. -/
def readlnLoop (acc : List Char) (s : List Char) : List Char × List Char :=
  if hs : s = [] then (acc, s)
  else
    if (acc ++ (gzTake (block_size - 1) s).1).getLast? = some '\n' then
      (acc ++ (gzTake (block_size - 1) s).1, (gzTake (block_size - 1) s).2)
    else
      readlnLoop (acc ++ (gzTake (block_size - 1) s).1) (gzTake (block_size - 1) s).2
termination_by s.length
decreasing_by
  exact gzTake_rest_lt (block_size - 1) s (by norm_num [block_size]) hs

/-- `readln` starts from the empty buffer (`line[0] = '\0'`). -/
def readln (s : List Char) : List Char × List Char := readlnLoop [] s

/-- Specification-side definition (from the spec's words, for claim C7):
the next text line of the stream, terminator included, together with the
rest of the stream; the whole stream when it contains no newline, and
the empty sentinel on an exhausted stream. -/
def nextLine : List Char → List Char × List Char
  | [] => ([], [])
  | c :: cs =>
    if c = '\n' then ([c], cs)
    else ((c :: (nextLine cs).1), (nextLine cs).2)

/-- Specification-side definition (from the spec's words, for claim C5):
the tile id as "the 5th colon-delimited field (0-indexed position 4)" of
the header, i.e. position 4 of the header split on `:` with empty fields
kept. -/
def tileId_spec (header : String) : Option String :=
  ((splitOnChar ':' header.data).map String.mk)[4]?

/-- Counterexample for C1 as stated: the strict comparison is applied to
the stored sequence line, which carries its terminator, so a
newline-terminated sequence of exactly `threshold` residues (here
`"ACG"` with threshold 3, stored as `"ACG\n"` of length 4) satisfies
`strlen > threshold` and the pair is kept, where the claim demands its
exclusion. -/
theorem std_check_read_residues_counterexample :
    "ACG\n" = "ACG" ++ "\n" ∧
    "ACG".length = 3 ∧
    std_check_read 3 ⟨"@a\n", "ACG\n", "+\n", "III\n"⟩
      ⟨"@a\n", "ACG\n", "+\n", "III\n"⟩ = true := by
  decide

/-- C1 (amended): `std_check_read` keeps a pair exactly when both stored
sequence lines (terminator included) are strictly longer than the
threshold; a line whose stored length is exactly the threshold is
excluded.  In residue terms: since a newline-terminated line holding `n`
residues has stored length `n + 1`, a pair of such lines is kept exactly
when both mates have at least `threshold` residues — a sequence of
exactly `threshold` residues is kept. -/
theorem std_check_read_spec (threshold : Nat) (r1 r2 : FastqRecord) :
    (std_check_read threshold r1 r2 = true ↔
      threshold < r1.seq.length ∧ threshold < r2.seq.length) ∧
    (r1.seq.length = threshold → std_check_read threshold r1 r2 = false) ∧
    (∀ res1 res2 : String, r1.seq = res1 ++ "\n" → r2.seq = res2 ++ "\n" →
      (std_check_read threshold r1 r2 = true ↔
        threshold ≤ res1.length ∧ threshold ≤ res2.length)) := by
  have hiff : std_check_read threshold r1 r2 = true ↔
      threshold < r1.seq.length ∧ threshold < r2.seq.length := by
    unfold std_check_read
    split <;> simp_all
  refine ⟨hiff, ?_, ?_⟩
  · intro h
    unfold std_check_read
    split
    · exfalso; omega
    · rfl
  · intro res1 res2 h1 h2
    rw [hiff, h1, h2]
    have e1 : (res1 ++ "\n").length = res1.length + 1 := by
      rw [String.length_append]; rfl
    have e2 : (res2 ++ "\n").length = res2.length + 1 := by
      rw [String.length_append]; rfl
    rw [e1, e2]
    omega

/-- Witness for the amended C1: with threshold 3, a stored line of
length exactly 3 (`"AB\n"`, i.e. 2 residues) is excluded; with
threshold 2 the same pair, holding exactly 2 residues per mate, is
kept. -/
theorem std_check_read_spec_witness :
    std_check_read 3 ⟨"@a\n", "AB\n", "+\n", "AB\n"⟩
      ⟨"@a\n", "AB\n", "+\n", "AB\n"⟩ = false ∧
    std_check_read 2 ⟨"@a\n", "AB\n", "+\n", "AB\n"⟩
      ⟨"@a\n", "AB\n", "+\n", "AB\n"⟩ = true :=
  ⟨(std_check_read_spec 3 ⟨"@a\n", "AB\n", "+\n", "AB\n"⟩
      ⟨"@a\n", "AB\n", "+\n", "AB\n"⟩).2.1 (by decide),
   ((std_check_read_spec 2 ⟨"@a\n", "AB\n", "+\n", "AB\n"⟩
      ⟨"@a\n", "AB\n", "+\n", "AB\n"⟩).2.2 "AB" "AB"
      (by decide) (by decide)).mpr (by decide)⟩

/-- C8: with an empty tile-removal array — as produced, e.g., by
`build_remove_tiles` on the empty argument — `tile_check_read` decides
every pair exactly as `std_check_read` does. -/
theorem tile_check_read_empty_tiles (t : Nat) (r1 r2 : FastqRecord) :
    tile_check_read t [] r1 r2 = some (std_check_read t r1 r2) ∧
    build_remove_tiles "" = [] := by
  constructor
  · unfold tile_check_read
    cases h : std_check_read t r1 r2
    · simp [h]
    · simp [h, tile_member]
  · rfl

/-- C4: `_trim_include` truncates the sequence and quality lines to the
first `trim_len` characters plus a newline exactly when the sequence
line is longer than `trim_len + 1` (the quality line, under the FASTQ
well-formedness invariant `len(qual) = len(seq)`, the same way with the
same length); otherwise the record is unchanged; the header and strand
lines are never modified. -/
theorem set_line_end_eq (s : String) (i : Nat) (h : i ≤ s.length) :
    set_line_end s i = String.mk (s.data.take i ++ ['\n']) := by
  unfold set_line_end; rw [if_pos h]

theorem set_line_end_length (s : String) (i : Nat) (h : i ≤ s.length) :
    (set_line_end s i).length = i + 1 := by
  rw [set_line_end_eq s i h]
  show (s.data.take i ++ ['\n']).length = i + 1
  have hd : i ≤ s.data.length := h
  simp [List.length_take]
  omega

theorem trim_include_spec (r : FastqRecord) (len : Nat) :
    (_trim_include r len).header = r.header ∧
    (_trim_include r len).strand = r.strand ∧
    (r.seq.length > len + 1 →
      ((_trim_include r len).seq).data = r.seq.data.take len ++ ['\n'] ∧
      ((_trim_include r len).seq).length = len + 1 ∧
      (r.qual.length = r.seq.length →
        ((_trim_include r len).qual).data = r.qual.data.take len ++ ['\n'] ∧
        ((_trim_include r len).qual).length = len + 1)) ∧
    (r.seq.length ≤ len + 1 → _trim_include r len = r) := by
  by_cases hlen : r.seq.length > len + 1
  · have hif : _trim_include r len =
        { r with seq := set_line_end r.seq len, qual := set_line_end r.qual len } := by
      unfold _trim_include; rw [if_pos hlen]
    have hle : len ≤ r.seq.length := by omega
    rw [hif]
    refine ⟨rfl, rfl, fun _ => ⟨?_, ?_, fun hq => ⟨?_, ?_⟩⟩, fun h => by omega⟩
    · show (set_line_end r.seq len).data = r.seq.data.take len ++ ['\n']
      rw [set_line_end_eq r.seq len hle]
    · exact set_line_end_length r.seq len hle
    · show (set_line_end r.qual len).data = r.qual.data.take len ++ ['\n']
      rw [set_line_end_eq r.qual len (by omega)]
    · exact set_line_end_length r.qual len (by omega)
  · have hif : _trim_include r len = r := by
      unfold _trim_include; rw [if_neg hlen]
    rw [hif]
    exact ⟨rfl, rfl, fun h => absurd h hlen, fun _ => rfl⟩

/-- Witness for C4: trimming a 5-residue sequence line (length 6 with
terminator) to 2 residues. -/
theorem trim_include_spec_witness :
    ((_trim_include ⟨"@h\n", "ACGTA\n", "+\n", "BCDEF\n"⟩ 2).seq).data
        = "ACGTA\n".data.take 2 ++ ['\n'] ∧
    ((_trim_include ⟨"@h\n", "ACGTA\n", "+\n", "BCDEF\n"⟩ 2).qual).data
        = "BCDEF\n".data.take 2 ++ ['\n'] ∧
    (_trim_include ⟨"@h\n", "AC\n", "+\n", "BC\n"⟩ 2)
        = ⟨"@h\n", "AC\n", "+\n", "BC\n"⟩ := by
  refine ⟨?_, ?_, ?_⟩
  · exact ((trim_include_spec ⟨"@h\n", "ACGTA\n", "+\n", "BCDEF\n"⟩ 2).2.2.1
      (by decide)).1
  · exact (((trim_include_spec ⟨"@h\n", "ACGTA\n", "+\n", "BCDEF\n"⟩ 2).2.2.1
      (by decide)).2.2 (by decide)).1
  · exact (trim_include_spec ⟨"@h\n", "AC\n", "+\n", "BC\n"⟩ 2).2.2.2 (by decide)

theorem tile_member_some (ts : List String) (tid : String) :
    tile_member ts (some tid) = some (decide (tid ∈ ts)) := by
  induction ts with
  | nil => simp [tile_member]
  | cons t ts ih =>
    simp only [tile_member, ih]
    by_cases h : tid = t
    · subst h
      simp [List.mem_cons]
    · have hbeq : (t == tid) = false := by simp [Ne.symm h]
      simp [hbeq, List.mem_cons, h]

/-- Counterexample for C5 as stated: for the header `"a::b:c:d:e\n"` the
5th colon-delimited field (0-indexed position 4) is `"d"`, which is in
the exclusion set, yet `tile_check_read` keeps the pair — `strtok` skips
the empty field, so the code compares the 5th nonempty token `"e\n"`
instead. -/
theorem tile_check_read_field_counterexample :
    std_check_read 0 ⟨"a::b:c:d:e\n", "AA\n", "+\n", "AA\n"⟩
        ⟨"@x\n", "AA\n", "+\n", "AA\n"⟩ = true ∧
    tileId_spec "a::b:c:d:e\n" = some "d" ∧
    "d" ∈ ["d"] ∧
    get_tile_id "a::b:c:d:e\n" = some "e\n" ∧
    tile_check_read 0 ["d"] ⟨"a::b:c:d:e\n", "AA\n", "+\n", "AA\n"⟩
        ⟨"@x\n", "AA\n", "+\n", "AA\n"⟩ = some true := by
  decide

/-- C5 (amended): `tile_check_read` short-circuits to `false` when the
length check fails; otherwise, when the header's 5th nonempty
colon-separated token (strtok semantics: empty fields skipped) exists,
it returns `false` iff that token is a member of the exclusion list. -/
theorem tile_check_read_spec (t : Nat) (tiles : List String)
    (r1 r2 : FastqRecord) (tid : String) :
    (std_check_read t r1 r2 = false → tile_check_read t tiles r1 r2 = some false) ∧
    (std_check_read t r1 r2 = true →
      (((splitOnChar ':' r1.header.data).map String.mk).filter (fun f => f ≠ ""))[4]?
          = some tid →
      tile_check_read t tiles r1 r2 = some (!(decide (tid ∈ tiles)))) := by
  constructor
  · intro h
    unfold tile_check_read
    simp [h]
  · intro h htid
    have hget : get_tile_id r1.header = some tid := htid
    unfold tile_check_read
    rw [h, hget, tile_member_some]
    simp

/-- Witness for the amended C5: the spec's tile-exclusion-law example —
a pair passing the threshold whose tile field `"1101"` is excluded. -/
theorem tile_check_read_spec_witness :
    tile_check_read 1 ["1101"]
      ⟨"@INST:1:FLOW:2:1101:100:200\n", "ACGTAC\n", "+\n", "IIIIII\n"⟩
      ⟨"@INST:1:FLOW:2:1101:100:200\n", "ACGTAC\n", "+\n", "IIIIII\n"⟩
      = some false := by
  have h := (tile_check_read_spec 1 ["1101"]
      ⟨"@INST:1:FLOW:2:1101:100:200\n", "ACGTAC\n", "+\n", "IIIIII\n"⟩
      ⟨"@INST:1:FLOW:2:1101:100:200\n", "ACGTAC\n", "+\n", "IIIIII\n"⟩
      "1101").2 (by decide) (by decide)
  simpa using h

/-- C10: with a nonempty exclusion list, a pair that passes the length
check but whose mate-1 header has fewer than 5 colon-delimited fields
makes `get_tile_id` return the NULL sentinel, and the membership loop's
`strcmp` against that NULL tile id is reached (modelled by the `none`
error result). -/
theorem tile_check_read_null_tile (t : Nat) (tiles : List String)
    (r1 r2 : FastqRecord) (hne : tiles ≠ [])
    (hstd : std_check_read t r1 r2 = true)
    (hlen : (splitOnChar ':' r1.header.data).length < 5) :
    get_tile_id r1.header = none ∧ tile_check_read t tiles r1 r2 = none := by
  have hf : (strtok_fields r1.header ':').length < 5 := by
    have hfil := List.length_filter_le (fun f => decide (f ≠ ""))
      ((splitOnChar ':' r1.header.data).map String.mk)
    have hmap : ((splitOnChar ':' r1.header.data).map String.mk).length
        = (splitOnChar ':' r1.header.data).length := List.length_map _ _
    unfold strtok_fields
    omega
  have hget : get_tile_id r1.header = none := by
    unfold get_tile_id
    exact List.getElem?_eq_none (by omega)
  refine ⟨hget, ?_⟩
  unfold tile_check_read
  rw [hstd, hget]
  match tiles, hne with
  | t' :: ts, _ => simp [tile_member]

/-- Witness for C10: header `"@short\n"` has a single colon-delimited
field, so the tile id is NULL and the comparison error is reached. -/
theorem tile_check_read_null_tile_witness :
    get_tile_id "@short\n" = none ∧
    tile_check_read 0 ["1101"] ⟨"@short\n", "AA\n", "+\n", "AA\n"⟩
      ⟨"@x\n", "AA\n", "+\n", "AA\n"⟩ = none :=
  tile_check_read_null_tile 0 ["1101"]
    ⟨"@short\n", "AA\n", "+\n", "AA\n"⟩ ⟨"@x\n", "AA\n", "+\n", "AA\n"⟩
    (by decide) (by decide) (by decide)

theorem firstChar_empty : firstChar "" = Char.ofNat 0 := rfl

theorem goodStream_zero {s : List String} (h : goodStream s 0) : s = [] := by
  obtain ⟨hlen, -⟩ := h
  exact List.length_eq_zero.mp (by omega)

theorem goodStream_succ {s : List String} {n : Nat} (h : goodStream s (n + 1)) :
    ∃ a b c d rest, s = a :: b :: c :: d :: rest ∧ goodStream rest n ∧
      firstChar a ≠ Char.ofNat 0 := by
  obtain ⟨hlen, hval⟩ := h
  match s with
  | [] => exfalso; simp only [List.length_nil] at hlen; omega
  | [a] => exfalso; simp only [List.length_cons, List.length_nil] at hlen; omega
  | [a, b] => exfalso; simp only [List.length_cons, List.length_nil] at hlen; omega
  | [a, b, c] => exfalso; simp only [List.length_cons, List.length_nil] at hlen; omega
  | a :: b :: c :: d :: rest =>
    refine ⟨a, b, c, d, rest, rfl, ⟨?_, ?_⟩, ?_⟩
    · simp only [List.length_cons] at hlen; omega
    · intro l hl; exact hval l (by simp [hl])
    · exact hval a (by simp)

/-- How a run over two streams of `n1` and `n2` complete records ends:
every one of the first `min n1 n2` pairs is checked, the status is `0`
iff the two streams hold the same number of records, the desync log
reports `read_pairs_checked * 4`, and the streams are closed. -/
theorem filterLoop_run (check : FastqRecord → FastqRecord → Bool)
    (incl1 incl2 : FastqRecord → FastqRecord) :
    ∀ n1 n2 : Nat, ∀ s1 s2 : List String, ∀ st : Stats,
    goodStream s1 n1 → goodStream s2 n2 →
    (filterLoop check incl1 incl2 s1 s2 st).stats.checked = st.checked + min n1 n2 ∧
    (filterLoop check incl1 incl2 s1 s2 st).status = (if n1 = n2 then 0 else 1) ∧
    (filterLoop check incl1 incl2 s1 s2 st).desyncLine =
      (if n1 = n2 then none else some ((st.checked + min n1 n2) * 4)) ∧
    (filterLoop check incl1 incl2 s1 s2 st).closed = true := by
  intro n1
  induction n1 with
  | zero =>
    intro n2 s1 s2 st h1 h2
    have hs1 : s1 = [] := goodStream_zero h1
    subst hs1
    cases n2 with
    | zero =>
      have hs2 : s2 = [] := goodStream_zero h2
      subst hs2
      rw [filterLoop]
      simp [readRecord, firstChar_empty]
    | succ m =>
      obtain ⟨a, b, c, d, rest, rfl, hrest, ha⟩ := goodStream_succ h2
      rw [filterLoop]
      simp [readRecord, firstChar_empty, Ne.symm ha]
  | succ k ih =>
    intro n2 s1 s2 st h1 h2
    obtain ⟨a, b, c, d, rest1, rfl, hrest1, ha⟩ := goodStream_succ h1
    cases n2 with
    | zero =>
      have hs2 : s2 = [] := goodStream_zero h2
      subst hs2
      rw [filterLoop]
      simp [readRecord, firstChar_empty, ha]
    | succ m =>
      obtain ⟨a2, b2, c2, d2, rest2, rfl, hrest2, ha2⟩ := goodStream_succ h2
      rw [filterLoop]
      simp only [readRecord, ha, ha2, or_self, dite_false, false_or, or_false,
        dite_eq_ite, if_false]
      have harith : st.checked + 1 + min k m = st.checked + min (k + 1) (m + 1) := by
        omega
      by_cases hc : check ⟨a, b, c, d⟩ ⟨a2, b2, c2, d2⟩
      · simp only [hc, if_true]
        obtain ⟨ihc, ihs, ihd, ihcl⟩ := ih m rest1 rest2
          ⟨st.checked + 1, st.removed, st.remaining + 1⟩ hrest1 hrest2
        refine ⟨?_, ?_, ?_, ?_⟩
        · show (filterLoop check incl1 incl2 rest1 rest2
            ⟨st.checked + 1, st.removed, st.remaining + 1⟩).stats.checked = _
          rw [ihc]; exact harith
        · show (filterLoop check incl1 incl2 rest1 rest2
            ⟨st.checked + 1, st.removed, st.remaining + 1⟩).status = _
          rw [ihs]
          by_cases hkm : k = m
          · rw [if_pos hkm, if_pos (by omega)]
          · rw [if_neg hkm, if_neg (by omega)]
        · show (filterLoop check incl1 incl2 rest1 rest2
            ⟨st.checked + 1, st.removed, st.remaining + 1⟩).desyncLine = _
          rw [ihd]
          by_cases hkm : k = m
          · rw [if_pos hkm, if_pos (by omega)]
          · rw [if_neg hkm, if_neg (by omega), harith]
        · show (filterLoop check incl1 incl2 rest1 rest2
            ⟨st.checked + 1, st.removed, st.remaining + 1⟩).closed = _
          rw [ihcl]
      · simp only [hc, if_false]
        obtain ⟨ihc, ihs, ihd, ihcl⟩ := ih m rest1 rest2
          ⟨st.checked + 1, st.removed + 1, st.remaining⟩ hrest1 hrest2
        refine ⟨?_, ?_, ?_, ?_⟩
        · show (filterLoop check incl1 incl2 rest1 rest2
            ⟨st.checked + 1, st.removed + 1, st.remaining⟩).stats.checked = _
          rw [ihc]; exact harith
        · show (filterLoop check incl1 incl2 rest1 rest2
            ⟨st.checked + 1, st.removed + 1, st.remaining⟩).status = _
          rw [ihs]
          by_cases hkm : k = m
          · rw [if_pos hkm, if_pos (by omega)]
          · rw [if_neg hkm, if_neg (by omega)]
        · show (filterLoop check incl1 incl2 rest1 rest2
            ⟨st.checked + 1, st.removed + 1, st.remaining⟩).desyncLine = _
          rw [ihd]
          by_cases hkm : k = m
          · rw [if_pos hkm, if_pos (by omega)]
          · rw [if_neg hkm, if_neg (by omega), harith]
        · show (filterLoop check incl1 incl2 rest1 rest2
            ⟨st.checked + 1, st.removed + 1, st.remaining⟩).closed = _
          rw [ihcl]

/-- C2: when exactly one of the two input streams ends before the other,
the run returns the failure (desync) status `1`, logs the approximate
line offset `checked * 4` at which the mismatch was detected, closes the
streams, and the checked counter equals the number of complete pairs
processed before the mismatch; when both streams end together the run
returns the success status `0`. -/
theorem desync_detection (check : FastqRecord → FastqRecord → Bool)
    (incl1 incl2 : FastqRecord → FastqRecord) (n1 n2 : Nat)
    (s1 s2 : List String) (h1 : goodStream s1 n1) (h2 : goodStream s2 n2) :
    (n1 ≠ n2 →
      (filter_fastqs check incl1 incl2 (some s1) (some s2)).status = 1 ∧
      (filter_fastqs check incl1 incl2 (some s1) (some s2)).desyncLine
        = some (min n1 n2 * 4) ∧
      (filter_fastqs check incl1 incl2 (some s1) (some s2)).stats.checked
        = min n1 n2 ∧
      (filter_fastqs check incl1 incl2 (some s1) (some s2)).closed = true) ∧
    (n1 = n2 →
      (filter_fastqs check incl1 incl2 (some s1) (some s2)).status = 0) := by
  obtain ⟨hc, hs, hd, hcl⟩ :=
    filterLoop_run check incl1 incl2 n1 n2 s1 s2 ⟨0, 0, 0⟩ h1 h2
  constructor
  · intro hne
    refine ⟨?_, ?_, ?_, ?_⟩
    · show (filterLoop check incl1 incl2 s1 s2 ⟨0, 0, 0⟩).status = 1
      rw [hs, if_neg hne]
    · show (filterLoop check incl1 incl2 s1 s2 ⟨0, 0, 0⟩).desyncLine = _
      rw [hd, if_neg hne]
      norm_num
    · show (filterLoop check incl1 incl2 s1 s2 ⟨0, 0, 0⟩).stats.checked = _
      rw [hc]
      norm_num
    · exact hcl
  · intro heq
    show (filterLoop check incl1 incl2 s1 s2 ⟨0, 0, 0⟩).status = 0
    rw [hs, if_pos heq]

/-- Witness for C2: a mate-1 stream of 3 records against a mate-2 stream
of 2 records desyncs after 2 checked pairs, reporting line 8. -/
theorem desync_detection_witness :
    (filter_fastqs (std_check_read 1) std_include std_include
        (some ["@r1 1\n", "ACGT\n", "+\n", "IIII\n",
               "@r2 1\n", "ACGT\n", "+\n", "IIII\n",
               "@r3 1\n", "ACGT\n", "+\n", "IIII\n"])
        (some ["@r1 2\n", "ACGT\n", "+\n", "IIII\n",
               "@r2 2\n", "ACGT\n", "+\n", "IIII\n"])).status = 1 ∧
    (filter_fastqs (std_check_read 1) std_include std_include
        (some ["@r1 1\n", "ACGT\n", "+\n", "IIII\n",
               "@r2 1\n", "ACGT\n", "+\n", "IIII\n",
               "@r3 1\n", "ACGT\n", "+\n", "IIII\n"])
        (some ["@r1 2\n", "ACGT\n", "+\n", "IIII\n",
               "@r2 2\n", "ACGT\n", "+\n", "IIII\n"])).desyncLine = some 8 ∧
    (filter_fastqs (std_check_read 1) std_include std_include
        (some ["@r1 1\n", "ACGT\n", "+\n", "IIII\n",
               "@r2 1\n", "ACGT\n", "+\n", "IIII\n",
               "@r3 1\n", "ACGT\n", "+\n", "IIII\n"])
        (some ["@r1 2\n", "ACGT\n", "+\n", "IIII\n",
               "@r2 2\n", "ACGT\n", "+\n", "IIII\n"])).stats.checked = 2 := by
  have h := (desync_detection (std_check_read 1) std_include std_include 3 2
      ["@r1 1\n", "ACGT\n", "+\n", "IIII\n",
       "@r2 1\n", "ACGT\n", "+\n", "IIII\n",
       "@r3 1\n", "ACGT\n", "+\n", "IIII\n"]
      ["@r1 2\n", "ACGT\n", "+\n", "IIII\n",
       "@r2 2\n", "ACGT\n", "+\n", "IIII\n"]
      (by decide) (by decide)).1 (by decide)
  refine ⟨h.1, ?_, ?_⟩
  · rw [h.2.1]; decide
  · rw [h.2.2.1]; decide

theorem filterLoop_stats_delta (check : FastqRecord → FastqRecord → Bool)
    (incl1 incl2 : FastqRecord → FastqRecord) (s1 s2 : List String) (st : Stats) :
    (filterLoop check incl1 incl2 s1 s2 st).stats.removed +
      (filterLoop check incl1 incl2 s1 s2 st).stats.remaining + st.checked =
    (filterLoop check incl1 incl2 s1 s2 st).stats.checked +
      (st.removed + st.remaining) ∧
    st.checked ≤ (filterLoop check incl1 incl2 s1 s2 st).stats.checked ∧
    st.removed ≤ (filterLoop check incl1 incl2 s1 s2 st).stats.removed ∧
    st.remaining ≤ (filterLoop check incl1 incl2 s1 s2 st).stats.remaining := by
  induction s1, s2, st using filterLoop.induct check incl1 incl2 with
  | case1 r1 r2 st h h2 =>
    rw [filterLoop, dif_pos h, if_pos h2]
    simp
    omega
  | case2 r1 r2 st h h2 =>
    rw [filterLoop, dif_pos h, if_neg h2]
    simp
    omega
  | case3 r1 r2 st h hc ih =>
    rw [filterLoop, dif_neg h, if_pos hc]
    simp at ih ⊢
    omega
  | case4 r1 r2 st h hc ih =>
    rw [filterLoop, dif_neg h, if_neg hc]
    simp at ih ⊢
    omega

/-- C3: the three counters start at 0; the equation
`checked = removed + remaining` is preserved from any state satisfying
it — hence it holds after every iteration of the loop — each counter is
monotonically non-decreasing across the loop, and at run completion
(counters started at `0`) the equation holds for any input. -/
theorem counters_invariant (check : FastqRecord → FastqRecord → Bool)
    (incl1 incl2 : FastqRecord → FastqRecord) (s1 s2 : List String)
    (st : Stats) (h : st.checked = st.removed + st.remaining) :
    (filterLoop check incl1 incl2 s1 s2 st).stats.checked =
      (filterLoop check incl1 incl2 s1 s2 st).stats.removed +
      (filterLoop check incl1 incl2 s1 s2 st).stats.remaining ∧
    st.checked ≤ (filterLoop check incl1 incl2 s1 s2 st).stats.checked ∧
    st.removed ≤ (filterLoop check incl1 incl2 s1 s2 st).stats.removed ∧
    st.remaining ≤ (filterLoop check incl1 incl2 s1 s2 st).stats.remaining ∧
    (filter_fastqs check incl1 incl2 (some s1) (some s2)).stats.checked =
      (filter_fastqs check incl1 incl2 (some s1) (some s2)).stats.removed +
      (filter_fastqs check incl1 incl2 (some s1) (some s2)).stats.remaining := by
  obtain ⟨d1, d2, d3, d4⟩ := filterLoop_stats_delta check incl1 incl2 s1 s2 st
  have h0 := filterLoop_stats_delta check incl1 incl2 s1 s2 ⟨0, 0, 0⟩
  simp at h0
  refine ⟨by omega, d2, d3, d4, ?_⟩
  show (filterLoop check incl1 incl2 s1 s2 ⟨0, 0, 0⟩).stats.checked =
    (filterLoop check incl1 incl2 s1 s2 ⟨0, 0, 0⟩).stats.removed +
    (filterLoop check incl1 incl2 s1 s2 ⟨0, 0, 0⟩).stats.remaining
  omega

/-- Witness for C3: a run over one 2-record stream and one 1-record
stream, starting from a state satisfying the counter equation. -/
theorem counters_invariant_witness :
    (filterLoop (std_check_read 1) std_include std_include
        ["@r1 1\n", "ACGT\n", "+\n", "IIII\n",
         "@r2 1\n", "AC\n", "+\n", "II\n"]
        ["@r1 2\n", "ACGT\n", "+\n", "IIII\n"]
        ⟨5, 2, 3⟩).stats.checked =
      (filterLoop (std_check_read 1) std_include std_include
        ["@r1 1\n", "ACGT\n", "+\n", "IIII\n",
         "@r2 1\n", "AC\n", "+\n", "II\n"]
        ["@r1 2\n", "ACGT\n", "+\n", "IIII\n"]
        ⟨5, 2, 3⟩).stats.removed +
      (filterLoop (std_check_read 1) std_include std_include
        ["@r1 1\n", "ACGT\n", "+\n", "IIII\n",
         "@r2 1\n", "AC\n", "+\n", "II\n"]
        ["@r1 2\n", "ACGT\n", "+\n", "IIII\n"]
        ⟨5, 2, 3⟩).stats.remaining :=
  (counters_invariant (std_check_read 1) std_include std_include
    ["@r1 1\n", "ACGT\n", "+\n", "IIII\n",
     "@r2 1\n", "AC\n", "+\n", "II\n"]
    ["@r1 2\n", "ACGT\n", "+\n", "IIII\n"]
    ⟨5, 2, 3⟩ (by decide)).1

theorem filterLoop_out_forall (check : FastqRecord → FastqRecord → Bool)
    (s1 s2 : List String) (st : Stats) :
    List.Forall₂ (fun a b => check a b = true ∧
        firstChar a.header ≠ Char.ofNat 0 ∧ firstChar b.header ≠ Char.ofNat 0)
      (filterLoop check std_include std_include s1 s2 st).out1
      (filterLoop check std_include std_include s1 s2 st).out2 := by
  induction s1, s2, st using filterLoop.induct check std_include std_include with
  | case1 r1 r2 st h h2 =>
    rw [filterLoop, dif_pos h, if_pos h2]
    exact List.Forall₂.nil
  | case2 r1 r2 st h h2 =>
    rw [filterLoop, dif_pos h, if_neg h2]
    exact List.Forall₂.nil
  | case3 r1 r2 st h hc ih =>
    rw [filterLoop, dif_neg h, if_pos hc]
    push_neg at h
    exact List.Forall₂.cons ⟨hc, h.1, h.2⟩ ih
  | case4 r1 r2 st h hc ih =>
    rw [filterLoop, dif_neg h, if_neg hc]
    exact ih

theorem readRecord_flatten_fst (r : FastqRecord) (rest : List String) :
    (readRecord (recordLines r ++ rest)).1 = r := rfl

theorem readRecord_flatten_snd (r : FastqRecord) (rest : List String) :
    (readRecord (recordLines r ++ rest)).2 = rest := rfl

theorem firstChar_readRecord_nil :
    firstChar ((readRecord ([] : List String)).1).header = Char.ofNat 0 := rfl

theorem filterLoop_flatten_keeps (check : FastqRecord → FastqRecord → Bool)
    (o1 o2 : List FastqRecord)
    (hf : List.Forall₂ (fun a b => check a b = true ∧
        firstChar a.header ≠ Char.ofNat 0 ∧ firstChar b.header ≠ Char.ofNat 0)
      o1 o2) :
    ∀ st : Stats,
    filterLoop check std_include std_include
        (flattenRecords o1) (flattenRecords o2) st =
      ⟨0, ⟨st.checked + o1.length, st.removed, st.remaining + o1.length⟩,
        none, o1, o2, true⟩ := by
  induction hf with
  | nil =>
    intro st
    cases st with
    | mk c r m =>
      show filterLoop check std_include std_include [] [] ⟨c, r, m⟩ = _
      rw [filterLoop, dif_pos (Or.inl firstChar_readRecord_nil), if_pos rfl]
      simp
  | @cons a b o1 o2 hab hrest ih =>
    intro st
    obtain ⟨hck, ha, hb⟩ := hab
    show filterLoop check std_include std_include
        (recordLines a ++ flattenRecords o1)
        (recordLines b ++ flattenRecords o2) st = _
    rw [filterLoop]
    simp only [readRecord_flatten_fst, readRecord_flatten_snd]
    rw [dif_neg (not_or_intro ha hb), if_pos hck]
    rw [ih ⟨st.checked + 1, st.removed, st.remaining + 1⟩]
    simp [std_include]
    omega

/-- C9: running the filter again on its own output, with the same
threshold, no tile exclusion and no trimming, keeps every record pair:
the second run succeeds, removes nothing, keeps everything it checks,
and reproduces the first run's output streams unchanged. -/
theorem refilter_keeps_all (t : Nat) (s1 s2 : List String) :
    (filter_fastqs (std_check_read t) std_include std_include
      (some (flattenRecords ((filter_fastqs (std_check_read t) std_include
        std_include (some s1) (some s2)).out1)))
      (some (flattenRecords ((filter_fastqs (std_check_read t) std_include
        std_include (some s1) (some s2)).out2)))).status = 0 ∧
    (filter_fastqs (std_check_read t) std_include std_include
      (some (flattenRecords ((filter_fastqs (std_check_read t) std_include
        std_include (some s1) (some s2)).out1)))
      (some (flattenRecords ((filter_fastqs (std_check_read t) std_include
        std_include (some s1) (some s2)).out2)))).stats.removed = 0 ∧
    (filter_fastqs (std_check_read t) std_include std_include
      (some (flattenRecords ((filter_fastqs (std_check_read t) std_include
        std_include (some s1) (some s2)).out1)))
      (some (flattenRecords ((filter_fastqs (std_check_read t) std_include
        std_include (some s1) (some s2)).out2)))).stats.remaining =
      (filter_fastqs (std_check_read t) std_include std_include
        (some (flattenRecords ((filter_fastqs (std_check_read t) std_include
          std_include (some s1) (some s2)).out1)))
        (some (flattenRecords ((filter_fastqs (std_check_read t) std_include
          std_include (some s1) (some s2)).out2)))).stats.checked ∧
    (filter_fastqs (std_check_read t) std_include std_include
      (some (flattenRecords ((filter_fastqs (std_check_read t) std_include
        std_include (some s1) (some s2)).out1)))
      (some (flattenRecords ((filter_fastqs (std_check_read t) std_include
        std_include (some s1) (some s2)).out2)))).out1 =
      (filter_fastqs (std_check_read t) std_include std_include
        (some s1) (some s2)).out1 ∧
    (filter_fastqs (std_check_read t) std_include std_include
      (some (flattenRecords ((filter_fastqs (std_check_read t) std_include
        std_include (some s1) (some s2)).out1)))
      (some (flattenRecords ((filter_fastqs (std_check_read t) std_include
        std_include (some s1) (some s2)).out2)))).out2 =
      (filter_fastqs (std_check_read t) std_include std_include
        (some s1) (some s2)).out2 := by
  have hA := filterLoop_out_forall (std_check_read t) s1 s2 ⟨0, 0, 0⟩
  have hB := filterLoop_flatten_keeps (std_check_read t)
    (filterLoop (std_check_read t) std_include std_include s1 s2 ⟨0, 0, 0⟩).out1
    (filterLoop (std_check_read t) std_include std_include s1 s2 ⟨0, 0, 0⟩).out2
    hA ⟨0, 0, 0⟩
  simp only [filter_fastqs, streamLines]
  rw [hB]
  simp

/-- C6 (evaluating the code at the failing input): `filter_fastqs` never
checks whether `gzopen` succeeded, and zlib's `gzgets` on a NULL stream
fails like an end-of-stream read, so a run whose two input paths cannot
be opened completes with status 0, zero counters and empty outputs
instead of failing. -/
theorem open_failure_exits_zero :
    filter_fastqs (std_check_read 36) std_include std_include none none =
      ⟨0, ⟨0, 0, 0⟩, none, [], [], true⟩ := by
  show filterLoop (std_check_read 36) std_include std_include [] [] ⟨0, 0, 0⟩ = _
  rw [filterLoop, dif_pos (Or.inl firstChar_readRecord_nil), if_pos rfl]

theorem gzTake_append (n : Nat) (s : List Char) :
    (gzTake n s).1 ++ (gzTake n s).2 = s := by
  induction n generalizing s with
  | zero => simp [gzTake]
  | succ m ih =>
    match s with
    | [] => simp [gzTake]
    | c :: cs =>
      simp only [gzTake]
      by_cases hc : c = '\n'
      · simp [hc]
      · simp only [if_neg hc, List.cons_append, List.cons.injEq, true_and]
        exact ih cs

theorem gzTake_fst_ne_nil (n : Nat) (s : List Char) (hn : 0 < n) (hs : s ≠ []) :
    (gzTake n s).1 ≠ [] := by
  match n, s with
  | m + 1, c :: cs =>
    simp only [gzTake]
    by_cases hc : c = '\n' <;> simp [hc]

theorem gzTake_newline_last (n : Nat) (s : List Char)
    (h : '\n' ∈ (gzTake n s).1) :
    (gzTake n s).1.getLast? = some '\n' := by
  induction n generalizing s with
  | zero => simp [gzTake] at h
  | succ m ih =>
    match s with
    | [] => simp [gzTake] at h
    | c :: cs =>
      simp only [gzTake] at h ⊢
      by_cases hc : c = '\n'
      · simp [hc]
      · simp only [if_neg hc] at h ⊢
        have hmem : '\n' ∈ (gzTake m cs).1 := by
          rcases List.mem_cons.mp h with h1 | h1
          · exact absurd h1.symm hc
          · exact h1
        have hlast := ih cs hmem
        have hne : (gzTake m cs).1 ≠ [] := by
          intro hnil; rw [hnil] at hmem; simp at hmem
        obtain ⟨x, xs, hxs⟩ := List.exists_cons_of_ne_nil hne
        rw [hxs] at hlast ⊢
        rw [List.getLast?_cons_cons]
        exact hlast

theorem gzTake_last_newline_nextLine (n : Nat) (s : List Char)
    (h : (gzTake n s).1.getLast? = some '\n') :
    nextLine s = gzTake n s := by
  induction n generalizing s with
  | zero => simp [gzTake] at h
  | succ m ih =>
    match s with
    | [] => simp [gzTake] at h
    | c :: cs =>
      simp only [gzTake] at h ⊢
      by_cases hc : c = '\n'
      · simp [nextLine, hc]
      · simp only [if_neg hc] at h ⊢
        have h1 : (gzTake m cs).1 ≠ [] := by
          intro hnil
          rw [hnil] at h
          simp at h
          exact hc h
        obtain ⟨x, xs, hxs⟩ := List.exists_cons_of_ne_nil h1
        rw [hxs] at h
        rw [List.getLast?_cons_cons] at h
        have hrec := ih cs (by rw [hxs]; exact h)
        simp only [nextLine, if_neg hc, hrec]

theorem nextLine_append (a b : List Char) (ha : '\n' ∉ a) :
    nextLine (a ++ b) = (a ++ (nextLine b).1, (nextLine b).2) := by
  induction a with
  | nil => simp
  | cons c cs ih =>
    have hc : c ≠ '\n' := by
      intro hh; exact ha (by simp [hh])
    have hcs : '\n' ∉ cs := fun hh => ha (by simp [hh])
    show nextLine (c :: (cs ++ b)) = _
    simp only [nextLine, if_neg hc]
    rw [ih hcs]
    simp

theorem readlnLoop_eq (acc s : List Char) :
    readlnLoop acc s = (acc ++ (nextLine s).1, (nextLine s).2) := by
  induction acc, s using readlnLoop.induct with
  | case1 acc =>
    rw [readlnLoop, dif_pos rfl]
    simp [nextLine]
  | case2 acc s hs hlast =>
    rw [readlnLoop, dif_neg hs, if_pos hlast]
    have hp1 : (gzTake (block_size - 1) s).1 ≠ [] :=
      gzTake_fst_ne_nil (block_size - 1) s (by decide) hs
    have hlast1 : (gzTake (block_size - 1) s).1.getLast? = some '\n' := by
      rw [List.getLast?_append_of_ne_nil acc hp1] at hlast
      exact hlast
    rw [gzTake_last_newline_nextLine (block_size - 1) s hlast1]
  | case3 acc s hs hlast ih =>
    rw [readlnLoop, dif_neg hs, if_neg hlast]
    rw [ih]
    have hp1 : (gzTake (block_size - 1) s).1 ≠ [] :=
      gzTake_fst_ne_nil (block_size - 1) s (by decide) hs
    have hnl : '\n' ∉ (gzTake (block_size - 1) s).1 := by
      intro hmem
      exact hlast (by
        rw [List.getLast?_append_of_ne_nil acc hp1]
        exact gzTake_newline_last (block_size - 1) s hmem)
    conv_rhs => rw [← gzTake_append (block_size - 1) s]
    rw [nextLine_append _ _ hnl]
    simp [List.append_assoc]

/-- C7: `readln` returns exactly the next text line of the stream,
terminator included and regardless of the line's length, together with
the rest of the stream, and it returns the empty-string sentinel exactly
when the stream is already exhausted. -/
theorem readln_spec (s : List Char) :
    readln s = nextLine s ∧ (readln s).1.isEmpty = s.isEmpty := by
  have h : readln s = nextLine s := by
    rw [readln, readlnLoop_eq]
    simp
  refine ⟨h, ?_⟩
  rw [h]
  match s with
  | [] => rfl
  | c :: cs =>
    simp only [nextLine]
    by_cases hc : c = '\n' <;> simp [hc]

end Fastq

